import Mathlib

/-!
Verification development for the routeros provider schema helpers
(provider_schema_helpers.go).  The Go functions are embedded shallowly:
machine integers are modelled as Nat/Int with explicit bounds, strings as
Lean strings iterated bytewise over their characters (all inputs of
interest are ASCII, where Go bytes and characters coincide), and functions
that can panic return Option values, with none marking the panic.
-/

namespace RouterOS

/-- Opaque stand-in for the terraform schema.ResourceData pointer; none of
the embedded functions inspect it. -/
structure ResourceData where

/-- Byte-level lowercasing used by Go strconv: c with bit 0x20 set. -/
def low (c : Char) : Nat := c.toNat ||| 32

/-- Digit test on a character, as Go writes it on bytes. -/
def isDigitB (c : Char) : Bool := 48 ≤ c.toNat && c.toNat ≤ 57

/-- Digit value of a byte as computed inside strconv.ParseUint: decimal
digits, then letters a-z (case folded) as 10..35; anything else is a
syntax error, signalled here by none. -/
def digitVal (c : Char) : Option Nat :=
  if 48 ≤ c.toNat && c.toNat ≤ 57 then some (c.toNat - 48)
  else if 97 ≤ low c && low c ≤ 122 then some (low c - 97 + 10)
  else none

/-- States of the underscore scanner of strconv: beginning of the number,
just after a digit (or base prefix), just after an underscore, or after
any other byte. -/
inductive USaw | start | digit | under | other
deriving DecidableEq

/-- Loop of strconv.underscoreOK: underscores must sit between digits
(hex digits too when the literal is hex). -/
def underscoreOKLoop (hex : Bool) : List Char → USaw → Bool
  | [], saw => saw ≠ USaw.under
  | c :: cs, saw =>
    if (48 ≤ c.toNat && c.toNat ≤ 57) || (hex && 97 ≤ low c && low c ≤ 102) then
      underscoreOKLoop hex cs USaw.digit
    else if c = '_' then
      if saw ≠ USaw.digit then false else underscoreOKLoop hex cs USaw.under
    else if saw = USaw.under then false
    else underscoreOKLoop hex cs USaw.other

/-- strconv.underscoreOK: whether the underscores in s are legally
placed (only between digits, or between a base prefix and a digit). -/
def underscoreOK (s : List Char) : Bool :=
  let s1 := match s with
    | c :: rest => if c = '-' || c = '+' then rest else s
    | [] => s
  match s1 with
  | a :: b :: rest =>
    if a = '0' && (low b = 98 || low b = 111 || low b = 120) then
      underscoreOKLoop (low b = 120) rest USaw.digit
    else underscoreOKLoop false s1 USaw.start
  | _ => underscoreOKLoop false s1 USaw.start

/-- Largest uint64 value. -/
def maxUint64 : Nat := 2 ^ 64 - 1

/-- Digit-accumulation loop of strconv.ParseUint with base argument 0:
underscores are skipped (recorded in the returned flag), any non-digit or
digit at or above the base is a syntax error, and exceeding the uint64
range is a range error; both errors are collapsed to none because every
caller in the provider only tests err for nil. -/
def puLoop (base cutoff : Nat) : List Char → Nat → Bool → Option Nat × Bool
  | [], n, us => (some n, us)
  | c :: cs, n, us =>
    if c = '_' then puLoop base cutoff cs n true
    else match digitVal c with
      | none => (none, us)
      | some d =>
        if base ≤ d then (none, us)
        else if cutoff ≤ n then (none, us)
        else if maxUint64 < n * base + d then (none, us)
        else puLoop base cutoff cs (n * base + d) us

/-- strconv.ParseUint(s, 0, 64): detects the 0b/0o/0x/0 base prefix, runs
the digit loop, and finally validates underscore placement against the
whole string when any underscore was skipped. -/
def parseUintBase0 (s : List Char) : Option Nat :=
  match s with
  | [] => none
  | c0 :: rest =>
    let pr : Nat × List Char :=
      if c0 = '0' then
        match rest with
        | c1 :: rest2 =>
          if rest2 ≠ [] && low c1 = 98 then (2, rest2)
          else if rest2 ≠ [] && low c1 = 111 then (8, rest2)
          else if rest2 ≠ [] && low c1 = 120 then (16, rest2)
          else (8, rest)
        | [] => (8, [])
      else (10, s)
    match puLoop pr.1 (maxUint64 / pr.1 + 1) pr.2 0 false with
    | (none, _) => none
    | (some n, us) => if us && !underscoreOK s then none else some n

/-- strconv.ParseInt(s, 0, 64): strips one optional sign, parses the rest
as unsigned, and applies the int64 range cut (values above 2^63 - 1, or
below -2^63, are range errors).  A ParseUint range error always turns
into a ParseInt range error because the returned saturation value 2^64 - 1
exceeds both cutoffs, so collapsing errors to none is faithful. -/
def parseIntBase0 (s : List Char) : Option Int :=
  match s with
  | [] => none
  | c :: rest =>
    let neg : Bool := c = '-'
    let t := if c = '+' || c = '-' then rest else s
    match parseUintBase0 t with
    | none => none
    | some un =>
      if !neg && 2 ^ 63 ≤ un then none
      else if neg && 2 ^ 63 < un then none
      else some (if neg then -(un : Int) else (un : Int))

/-- strconv.ParseInt(v, 0, 64) on a Go string, none meaning err != nil. -/
def goParseInt0 (s : String) : Option Int := parseIntBase0 s.data

/-- Severity of a terraform diagnostic. -/
inductive Severity | error | warning
deriving DecidableEq

/-- A terraform diagnostic as produced by the MTU validator: only the
severity and summary fields are ever set. -/
structure Diagnostic where
  severity : Severity
  summary : String
deriving DecidableEq

/-- The ValidateDiagFunc of PropMtuRw: the literal token "auto" passes,
otherwise the value must parse under strconv.ParseInt(v, 0, 64) and lie
in 0 .. 65535; the parse-failure branch returns a fixed message, the
range branch appends the offending value to its message. -/
def mtuValidate (v : String) : List Diagnostic :=
  if v = "auto" then []
  else
    match goParseInt0 v with
    | none => [⟨Severity.error, "Expected MTU value to be integer or 'auto'"⟩]
    | some mtu =>
      if mtu < 0 || 65535 < mtu then
        [⟨Severity.error, "Expected MTU value to be in the range (0 - 65535), got " ++ v⟩]
      else []

/-- Resource ID type, a named integer type (declared outside this file
set; only the conversion int(t) is used here). -/
def IdType := Int

/-- Semantic type of a schema field. -/
inductive SchemaType | string | int | bool | typeList | typeMap
deriving DecidableEq

/-- Default value of a schema field (the Go field is interface valued). -/
inductive SchemaDefault
  | str (s : String)
  | int (i : Int)
  | boolean (b : Bool)
  | unset
deriving DecidableEq

/-- The slice of the terraform schema.Schema record that the helpers in
this file set populate.  DiffSuppressFunc results are Option Bool, with
none marking a panic inside the function. -/
structure Schema where
  type : SchemaType
  optional : Bool := false
  required : Bool := false
  computed : Bool := false
  forceNew : Bool := false
  default : SchemaDefault := SchemaDefault.unset
  description : String := ""
  diffSuppress : Option (String → String → String → ResourceData → Option Bool) := none
  validateDiag : Option (String → List Diagnostic) := none
  validate : Option (String → List String) := none

/-- PropResourcePath: string service field whose default is the given
path and whose DiffSuppressFunc ignores its arguments and returns true. -/
def PropResourcePath (p : String) : Schema :=
  { type := SchemaType.string
    optional := true
    default := SchemaDefault.str p
    description := "<em>Resource path for CRUD operations. This is an internal service field, setting a value is not required.</em>"
    diffSuppress := some fun _ _ _ _ => some true }

/-- PropId: int service field whose default is int(t) and whose
DiffSuppressFunc ignores its arguments and returns true. -/
def PropId (t : IdType) : Schema :=
  { type := SchemaType.int
    optional := true
    default := SchemaDefault.int t
    description := "<em>Resource ID type (.id / name). This is an internal service field, setting a value is not required.</em>"
    diffSuppress := some fun _ _ _ _ => some true }

/-- PropMtuRw: computed-and-optional string field validated by
mtuValidate. -/
def PropMtuRw : Schema :=
  { type := SchemaType.string
    computed := true
    optional := true
    validateDiag := some mtuValidate
    description := "Layer3 Maximum transmission unit ('auto', 0 .. 65535)" }

/-- Time-unit character class of the ValidationTime regular expression,
the bracket expression [smhdw]. -/
def isUnitB (c : Char) : Bool := c = 's' || c = 'm' || c = 'h' || c = 'd' || c = 'w'

mutual
/-- State of the ValidationTime matcher after reading a digit: more
digits extend the current token, a unit letter closes it, anything else
rejects; end of input accepts. -/
def afterDigit : List Char → Bool
  | [] => true
  | c :: cs => if isDigitB c then afterDigit cs else if isUnitB c then afterUnit cs else false

/-- State of the ValidationTime matcher after reading a unit letter: only
a digit (opening the next token) may follow; end of input accepts. -/
def afterUnit : List Char → Bool
  | [] => true
  | c :: cs => if isDigitB c then afterDigit cs else false
end

/-- Matcher for the anchored regular expression of ValidationTime,
one or more groups of digits followed by an optional letter from
[smhdw]; the equivalence with the token-concatenation language of the
regular expression is proved below (matchTime_iff_tokenConcat). -/
def matchTimeCode (s : List Char) : Bool :=
  match s with
  | [] => false
  | c :: cs => isDigitB c && afterDigit cs

/-- ValidationTime: validation.StringMatch with the anchored pattern of
one or more digit groups each followed by an optional [smhdw] letter;
returns the error list of the schema validator. -/
def ValidationTime (v : String) : List String :=
  if matchTimeCode v.data then []
  else ["value must be integer[/time],integer 0..4294967295"]

/-- The language of one or more digits-then-optional-unit groups, with
the allowed unit strings given as a parameter: the code's regular
expression uses the five single letters s m h d w, the spec's wording
names the six units ms s M h d w. -/
inductive TokenConcat (units : List (List Char)) : List Char → Prop
  | one (ds u : List Char) : ds ≠ [] → (∀ c ∈ ds, isDigitB c = true) →
      (u = [] ∨ u ∈ units) → TokenConcat units (ds ++ u)
  | cons (ds u rest : List Char) : ds ≠ [] → (∀ c ∈ ds, isDigitB c = true) →
      (u = [] ∨ u ∈ units) → TokenConcat units rest →
      TokenConcat units (ds ++ (u ++ rest))

/-- Unit strings of the regular expression in ValidationTime. -/
def regexUnits : List (List Char) := [['s'], ['m'], ['h'], ['d'], ['w']]

/-- Unit strings named by the specification for duration fields. -/
def specUnits : List (List Char) := [['m', 's'], ['s'], ['M'], ['h'], ['d'], ['w']]

/-- Reads a maximal nonempty decimal digit run from the front of the
input, returning its value and the remainder. -/
def readDigitsAux : List Char → Nat → Nat × List Char
  | [], acc => (acc, [])
  | c :: cs, acc =>
    if isDigitB c then readDigitsAux cs (acc * 10 + (c.toNat - 48)) else (acc, c :: cs)

/-- Some value and remainder when the input starts with a digit. -/
def readDigits (s : List Char) : Option (Nat × List Char) :=
  match s with
  | [] => none
  | c :: _ => if isDigitB c then some (readDigitsAux s 0) else none

/-- Millisecond multiplier of the duration unit at the front of the
input, together with the remainder: ms, s, M (minutes), h, d, w; a
missing unit defaults to seconds. -/
def readUnit : List Char → Nat × List Char
  | 'm' :: 's' :: rest => (1, rest)
  | 's' :: rest => (1000, rest)
  | 'M' :: rest => (60000, rest)
  | 'h' :: rest => (3600000, rest)
  | 'd' :: rest => (86400000, rest)
  | 'w' :: rest => (604800000, rest)
  | s => (1000, s)

/-- One pass of the duration parser: the fuel only serves termination and
is initialised to the input length, which suffices because every round
consumes at least one character. -/
def pdAux : Nat → List Char → Nat → Option Nat
  | _, [], acc => some acc
  | 0, _ :: _, _ => none
  | fuel + 1, s, acc =>
    match readDigits s with
    | none => none
    | some (n, rest) =>
      let mu := readUnit rest
      pdAux fuel mu.2 (acc + n * mu.1)

/-- Modelled from the spec: the routeros ParseDuration function is not in
this file set; per the spec a duration is a non-empty sequence of
integer-unit tokens with units ms, s, M, h, d, w (seconds when the unit
is omitted).  The result is the total in milliseconds as an exact
natural number; the overflow cap of the real parser is not modelled. -/
def parseDurationMs (s : String) : Option Nat :=
  match s.data with
  | [] => none
  | l => pdAux l.length l 0

/-- Seconds reading of a millisecond total, as the exact rational ms/1000
(the Go Duration.Seconds float is exact-enough on the representable range
that its equality agrees with this one at millisecond granularity). -/
def Seconds (ms : Nat) : ℚ := mkRat ms 1000

/-- TimeEquall DiffSuppressFunc: textual equality short-circuits to true,
a single empty side gives false, then both sides are parsed as durations
(a parse failure panics, modelled as none) and compared by seconds. -/
def TimeEquall (_k old new : String) (_d : ResourceData) : Option Bool :=
  if old = new then some true
  else if old = "" || new = "" then some false
  else
    match parseDurationMs old, parseDurationMs new with
    | some o, some n => some (decide (Seconds o = Seconds n))
    | _, _ => none

/-- HexEqual DiffSuppressFunc: textual equality short-circuits to true, a
single empty side gives false, then both sides are parsed with
strconv.ParseInt(0, 64) (a parse failure panics, modelled as none) and
compared as integers. -/
def HexEqual (_k old new : String) (_d : ResourceData) : Option Bool :=
  if old = new then some true
  else if old = "" || new = "" then some false
  else
    match goParseInt0 old, goParseInt0 new with
    | some o, some n => some (decide (o = n))
    | _, _ => none

/-- buildReadFilter: appends one name=value string per entry, in the
order the Go map range produces the entries; the argument list is that
iteration sequence (Go fixes no order for it), and the interface-typed
values are the strings the provider stores in filter maps. -/
def buildReadFilter (m : List (String × String)) : List String :=
  m.map fun e => e.1 ++ "=" ++ e.2

/-- Bytewise prefix test on character lists. -/
def listPrefixB : List Char → List Char → Bool
  | [], _ => true
  | _ :: _, [] => false
  | a :: as, b :: bs => a = b && listPrefixB as bs

/-- Bytewise containment test on character lists: the needle is a prefix
of some suffix of the haystack. -/
def listInfixB (needle : List Char) : List Char → Bool
  | [] => needle.isEmpty
  | c :: cs => listPrefixB needle (c :: cs) || listInfixB needle cs

/-- Substring containment on strings, bytewise. -/
def strContains (hay needle : String) : Bool := listInfixB needle.data hay.data

theorem listPrefixB_refl (l : List Char) : listPrefixB l l = true := by
  induction l with
  | nil => rfl
  | cons c cs ih => simp [listPrefixB, ih]

theorem listInfixB_self (l : List Char) : listInfixB l l = true := by
  cases l with
  | nil => rfl
  | cons c cs => simp [listInfixB, listPrefixB_refl]

theorem listInfixB_append (needle pre t : List Char) (h : listInfixB needle t = true) :
    listInfixB needle (pre ++ t) = true := by
  induction pre with
  | nil => simpa using h
  | cons c cs ih => simp [listInfixB, ih]

/-- A string always contains its own suffix. -/
theorem strContains_append (pre v : String) : strContains (pre ++ v) v = true := by
  have hdata : (pre ++ v).data = pre.data ++ v.data := rfl
  unfold strContains
  rw [hdata]
  exact listInfixB_append v.data pre.data v.data (listInfixB_self v.data)

/-! Lemmas relating the executable ValidationTime matcher to the
token-concatenation language of its regular expression. -/

theorem unit_not_digit {c : Char} (h : isUnitB c = true) : isDigitB c = false := by
  simp only [isUnitB, Bool.or_eq_true, decide_eq_true_eq] at h
  rcases h with (((h | h) | h) | h) | h <;> subst h <;> decide

theorem unit_mem_regexUnits {c : Char} (h : isUnitB c = true) : [c] ∈ regexUnits := by
  simp only [isUnitB, Bool.or_eq_true, decide_eq_true_eq] at h
  rcases h with (((h | h) | h) | h) | h <;> subst h <;> simp [regexUnits]

theorem mem_regexUnits_unit {u : List Char} (h : u ∈ regexUnits) :
    ∃ c, u = [c] ∧ isUnitB c = true := by
  simp only [regexUnits, List.mem_cons, List.not_mem_nil, or_false] at h
  rcases h with h | h | h | h | h <;> exact ⟨_, h, by decide⟩

theorem afterDigit_append_digits {ds : List Char} (h : ∀ c ∈ ds, isDigitB c = true)
    (t : List Char) : afterDigit (ds ++ t) = afterDigit t := by
  induction ds with
  | nil => rfl
  | cons c cs ih =>
    have hc : isDigitB c = true := h c (List.mem_cons_self c cs)
    simp only [List.cons_append, afterDigit, hc, if_true]
    exact ih fun x hx => h x (List.mem_cons_of_mem c hx)

theorem afterDigit_of_match {s : List Char} (h : matchTimeCode s = true) :
    afterDigit s = true := by
  cases s with
  | nil => simp [matchTimeCode] at h
  | cons c cs =>
    simp only [matchTimeCode, Bool.and_eq_true] at h
    simp [afterDigit, h.1, h.2]

theorem afterUnit_of_match {s : List Char} (h : matchTimeCode s = true) :
    afterUnit s = true := by
  cases s with
  | nil => simp [matchTimeCode] at h
  | cons c cs =>
    simp only [matchTimeCode, Bool.and_eq_true] at h
    simp [afterUnit, h.1, h.2]

theorem matchTime_of_tokenConcat {s : List Char} (h : TokenConcat regexUnits s) :
    matchTimeCode s = true := by
  induction h with
  | one ds u hne hds hu =>
    obtain ⟨c, cs, rfl⟩ := List.exists_cons_of_ne_nil hne
    have hc : isDigitB c = true := hds c (List.mem_cons_self c cs)
    have hcs : ∀ x ∈ cs, isDigitB x = true := fun x hx => hds x (List.mem_cons_of_mem c hx)
    simp only [List.cons_append, matchTimeCode, hc, Bool.true_and]
    rw [afterDigit_append_digits hcs]
    rcases hu with rfl | hu
    · rfl
    · obtain ⟨c', rfl, hc'⟩ := mem_regexUnits_unit hu
      simp [afterDigit, unit_not_digit hc', hc', afterUnit]
  | cons ds u rest hne hds hu _ ih =>
    obtain ⟨c, cs, rfl⟩ := List.exists_cons_of_ne_nil hne
    have hc : isDigitB c = true := hds c (List.mem_cons_self c cs)
    have hcs : ∀ x ∈ cs, isDigitB x = true := fun x hx => hds x (List.mem_cons_of_mem c hx)
    simp only [List.cons_append, matchTimeCode, hc, Bool.true_and]
    rw [afterDigit_append_digits hcs]
    rcases hu with rfl | hu
    · simpa using afterDigit_of_match ih
    · obtain ⟨c', rfl, hc'⟩ := mem_regexUnits_unit hu
      simp [afterDigit, unit_not_digit hc', hc', afterUnit_of_match ih]

theorem tokenConcat_of_afterDigit (n : Nat) : ∀ cs : List Char, cs.length ≤ n →
    afterDigit cs = true → ∀ ds : List Char, ds ≠ [] → (∀ c ∈ ds, isDigitB c = true) →
    TokenConcat regexUnits (ds ++ cs) := by
  induction n with
  | zero =>
    intro cs hlen _ ds hne hds
    have : cs = [] := List.eq_nil_of_length_eq_zero (Nat.le_zero.mp hlen)
    subst this
    exact TokenConcat.one ds [] hne hds (Or.inl rfl)
  | succ n ih =>
    intro cs hlen hcs ds hne hds
    match cs with
    | [] => exact TokenConcat.one ds [] hne hds (Or.inl rfl)
    | c :: cs' =>
      by_cases hd : isDigitB c = true
      · have hcs' : afterDigit cs' = true := by simpa [afterDigit, hd] using hcs
        have hlen' : cs'.length ≤ n := by simpa using Nat.le_of_succ_le_succ hlen
        have := ih cs' hlen' hcs' (ds ++ [c]) (by simp)
          (by intro x hx
              rcases List.mem_append.mp hx with hx | hx
              · exact hds x hx
              · simp only [List.mem_singleton] at hx; subst hx; exact hd)
        simpa [List.append_assoc] using this
      · by_cases hu : isUnitB c = true
        · have hcs' : afterUnit cs' = true := by
            simpa [afterDigit, hd, hu] using hcs
          match cs' with
          | [] =>
            exact TokenConcat.one ds [c] hne hds (Or.inr (unit_mem_regexUnits hu))
          | c' :: cs'' =>
            by_cases hd' : isDigitB c' = true
            · have hcs'' : afterDigit cs'' = true := by
                simpa [afterUnit, hd'] using hcs'
              have hlen'' : cs''.length ≤ n := by
                simp only [List.length_cons] at hlen
                omega
              have hrest : TokenConcat regexUnits ([c'] ++ cs'') :=
                ih cs'' hlen'' hcs'' [c'] (by simp) (by simpa using hd')
              have := TokenConcat.cons ds [c] (c' :: cs'') hne hds
                (Or.inr (unit_mem_regexUnits hu)) (by simpa using hrest)
              simpa using this
            · simp [afterUnit, hd'] at hcs'
        · simp [afterDigit, hd, hu] at hcs

theorem matchTime_iff_tokenConcat (s : List Char) :
    matchTimeCode s = true ↔ TokenConcat regexUnits s := by
  constructor
  · intro h
    cases s with
    | nil => simp [matchTimeCode] at h
    | cons c cs =>
      simp only [matchTimeCode, Bool.and_eq_true] at h
      simpa using tokenConcat_of_afterDigit cs.length cs le_rfl h.2 [c] (by simp)
        (by simpa using h.1)
  · exact matchTime_of_tokenConcat

/-! Claim theorems. -/

/-- Claim C1: for every pair of non-empty, textually different duration
strings that both parse, TimeEquall returns true exactly when the two
durations denote the same number of seconds; in particular it suppresses
the 1h / 3600s diff and keeps the 1h / 2h diff. -/
theorem claim_C1 :
    (∀ (k : String) (d : ResourceData) (a b : String) (x y : Nat),
       a ≠ "" → b ≠ "" → a ≠ b →
       parseDurationMs a = some x → parseDurationMs b = some y →
       (TimeEquall k a b d = some true ↔ Seconds x = Seconds y)) ∧
    TimeEquall "interval" "1h" "3600s" ⟨⟩ = some true ∧
    TimeEquall "interval" "1h" "2h" ⟨⟩ = some false := by
  refine ⟨?_, by decide, by decide⟩
  intro k d a b x y ha hb hab hx hy
  unfold TimeEquall
  rw [if_neg hab, if_neg (by simp [ha, hb]), hx, hy]
  simp

/-- Witness for claim C1 at the concrete pair 1h / 3600s. -/
theorem claim_C1_witness :
    TimeEquall "interval" "1h" "3600s" ⟨⟩ = some true ↔ Seconds 3600000 = Seconds 3600000 :=
  claim_C1.1 "interval" ⟨⟩ "1h" "3600s" 3600000 3600000
    (by decide) (by decide) (by decide) (by decide) (by decide)

/-- Claim C2: the PropMtuRw validator accepts exactly the literal token
auto and the strings parsing (under strconv.ParseInt with base 0) to an
integer in 0 .. 65535; every rejection is a single error diagnostic; the
values 70000, auto and 1500 behave as the spec says. -/
theorem claim_C2 :
    (∀ v : String, mtuValidate v = [] ↔
       v = "auto" ∨ ∃ n : Int, goParseInt0 v = some n ∧ 0 ≤ n ∧ n ≤ 65535) ∧
    (∀ v : String, mtuValidate v = [] ∨
       ∃ dg, mtuValidate v = [dg] ∧ dg.severity = Severity.error) ∧
    mtuValidate "70000" ≠ [] ∧ mtuValidate "auto" = [] ∧ mtuValidate "1500" = [] := by
  refine ⟨?_, ?_, by decide, by decide, by decide⟩
  · intro v
    unfold mtuValidate
    by_cases hv : v = "auto"
    · simp [hv]
    · rw [if_neg hv]
      cases h : goParseInt0 v with
      | none => simp [hv, h]
      | some m =>
        dsimp only
        by_cases hm : m < 0 || 65535 < m
        · rw [if_pos hm]
          simp only [Bool.or_eq_true, decide_eq_true_eq] at hm
          simp only [hv, h, false_or]
          constructor
          · intro hcontra; cases hcontra
          · rintro ⟨n, hn, h0, h65⟩
            injection hn with hn
            subst hn
            omega
        · rw [if_neg hm]
          simp only [Bool.or_eq_true, decide_eq_true_eq, not_or, not_lt] at hm
          simp only [hv, false_or, true_iff]
          exact ⟨m, rfl, hm.1, hm.2⟩
  · intro v
    unfold mtuValidate
    by_cases hv : v = "auto"
    · left; simp [hv]
    · rw [if_neg hv]
      cases h : goParseInt0 v with
      | none => exact Or.inr ⟨_, rfl, rfl⟩
      | some m =>
        dsimp only
        by_cases hm : m < 0 || 65535 < m
        · rw [if_pos hm]; exact Or.inr ⟨_, rfl, rfl⟩
        · rw [if_neg hm]; exact Or.inl rfl

/-- Counterexample to claim C3 as stated: 10ms is a concatenation of
integer-unit tokens with a unit from the set the spec names, yet
ValidationTime rejects it. -/
theorem claim_C3_counterexample :
    TokenConcat specUnits ("10ms".data) ∧ ValidationTime "10ms" ≠ [] := by
  constructor
  · have h : ("10ms".data : List Char) = ['1', '0'] ++ ['m', 's'] := by decide
    rw [h]
    exact TokenConcat.one ['1', '0'] ['m', 's'] (by simp) (by decide)
      (Or.inr (by simp [specUnits]))
  · decide

/-- Claim C3 amended: ValidationTime accepts exactly the non-empty
concatenations of integer-unit tokens whose optional unit is one of the
single lowercase letters s, m, h, d, w; hence 1w2d is accepted while
10ms and 5M are rejected. -/
theorem claim_C3_amended :
    (∀ v : String, ValidationTime v = [] ↔ TokenConcat regexUnits v.data) ∧
    ValidationTime "1w2d" = [] ∧ ValidationTime "10ms" ≠ [] ∧ ValidationTime "5M" ≠ [] := by
  refine ⟨?_, by decide, by decide, by decide⟩
  intro v
  unfold ValidationTime
  by_cases h : matchTimeCode v.data
  · simp [h, (matchTime_iff_tokenConcat v.data).mp h]
  · simp only [h, if_false]
    constructor
    · intro hcontra; cases hcontra
    · intro hc
      exact absurd ((matchTime_iff_tokenConcat v.data).mpr hc) (by simpa using h)

/-- Counterexample to claim C4 as stated: the value zz is neither auto
nor an in-range integer, but the diagnostic it produces is the fixed
parse-failure message, which does not contain zz. -/
theorem claim_C4_counterexample :
    mtuValidate "zz" = [⟨Severity.error, "Expected MTU value to be integer or 'auto'"⟩] ∧
    strContains "Expected MTU value to be integer or 'auto'" "zz" = false := by
  exact ⟨by decide, by decide⟩

/-- Claim C4 amended: only the out-of-range branch of the MTU validator
names the offending value in its diagnostic; the non-numeric branch
returns a fixed message that does not mention the value. -/
theorem claim_C4_amended :
    (∀ (v : String) (n : Int), goParseInt0 v = some n → (n < 0 ∨ 65535 < n) →
       ∃ dg, mtuValidate v = [dg] ∧ strContains dg.summary v = true) ∧
    (∀ v : String, v ≠ "auto" → goParseInt0 v = none →
       mtuValidate v = [⟨Severity.error, "Expected MTU value to be integer or 'auto'"⟩]) := by
  constructor
  · intro v n hparse hrange
    have hv : v ≠ "auto" := by
      intro hcontra; subst hcontra
      have : goParseInt0 "auto" = none := by decide
      rw [this] at hparse; cases hparse
    have hcond : (n < 0 || 65535 < n) = true := by
      rcases hrange with h | h <;> simp [h]
    refine ⟨⟨Severity.error, "Expected MTU value to be in the range (0 - 65535), got " ++ v⟩,
      ?_, ?_⟩
    · unfold mtuValidate
      rw [if_neg hv, hparse]
      dsimp only
      rw [if_pos hcond]
    · exact strContains_append "Expected MTU value to be in the range (0 - 65535), got " v
  · intro v hv hparse
    unfold mtuValidate
    rw [if_neg hv, hparse]

/-- Witness for claim C4 amended at the concrete out-of-range value
70000. -/
theorem claim_C4_witness :
    ∃ dg, mtuValidate "70000" = [dg] ∧ strContains dg.summary "70000" = true :=
  claim_C4_amended.1 "70000" 70000 (by decide) (Or.inr (by decide))

/-- Counterexample to claim C5 as stated: the two entry sequences are the
same finite map (a permutation with the same key-value pairs), yet
buildReadFilter returns differently ordered sequences — the Go map range
order the function relies on is not fixed by the language. -/
theorem claim_C5_counterexample :
    List.Perm [("a", "1"), ("b", "2")] [("b", "2"), ("a", "1")] ∧
    buildReadFilter [("a", "1"), ("b", "2")] ≠ buildReadFilter [("b", "2"), ("a", "1")] := by
  exact ⟨List.Perm.swap ("b", "2") ("a", "1") [], by decide⟩

/-- Claim C5 amended: buildReadFilter emits exactly one name=value
string per entry of the iteration sequence it is handed, in that order;
since Go fixes no map iteration order, equal maps are only guaranteed
outputs equal up to permutation, not equal sequences. -/
theorem claim_C5_amended :
    (∀ m : List (String × String), (buildReadFilter m).length = m.length) ∧
    (∀ (m : List (String × String)) (i : Nat),
       (buildReadFilter m)[i]? = m[i]?.map fun e => e.1 ++ "=" ++ e.2) ∧
    (∀ m₁ m₂ : List (String × String), m₁.Perm m₂ →
       (buildReadFilter m₁).Perm (buildReadFilter m₂)) := by
  refine ⟨fun m => List.length_map m _, fun m i => List.getElem?_map _ m i, ?_⟩
  intro m₁ m₂ h
  exact h.map _

/-- Witness for claim C5 amended: permuting the two entries permutes the
output. -/
theorem claim_C5_witness :
    (buildReadFilter [("a", "1"), ("b", "2")]).Perm
      (buildReadFilter [("b", "2"), ("a", "1")]) :=
  claim_C5_amended.2.2 _ _ (List.Perm.swap ("b", "2") ("a", "1") [])

/-- Claim C6: the diff-suppressors panic (return none here) exactly when
the two arguments are textually different, both non-empty, and at least
one of them fails to parse under the expected format; on textually equal
arguments, on an empty argument, and on two well-formed arguments they
always return. -/
theorem claim_C6 :
    ∀ (k : String) (d : ResourceData) (old new : String),
      (TimeEquall k old new d = none ↔
        old ≠ new ∧ old ≠ "" ∧ new ≠ "" ∧
          (parseDurationMs old = none ∨ parseDurationMs new = none)) ∧
      (HexEqual k old new d = none ↔
        old ≠ new ∧ old ≠ "" ∧ new ≠ "" ∧
          (goParseInt0 old = none ∨ goParseInt0 new = none)) := by
  intro k d old new
  constructor
  · by_cases h1 : old = new
    · simp [TimeEquall, h1]
    · by_cases h2 : old = ""
      · subst h2
        simp [TimeEquall, h1]
      · by_cases h3 : new = ""
        · subst h3
          simp [TimeEquall, h1, h2]
        · cases ho : parseDurationMs old with
          | none => simp [TimeEquall, h1, h2, h3, ho]
          | some o =>
            cases hn : parseDurationMs new with
            | none => simp [TimeEquall, h1, h2, h3, ho, hn]
            | some n => simp [TimeEquall, h1, h2, h3, ho, hn]
  · by_cases h1 : old = new
    · simp [HexEqual, h1]
    · by_cases h2 : old = ""
      · subst h2
        simp [HexEqual, h1]
      · by_cases h3 : new = ""
        · subst h3
          simp [HexEqual, h1, h2]
        · cases ho : goParseInt0 old with
          | none => simp [HexEqual, h1, h2, h3, ho]
          | some o =>
            cases hn : goParseInt0 new with
            | none => simp [HexEqual, h1, h2, h3, ho, hn]
            | some n => simp [HexEqual, h1, h2, h3, ho, hn]

/-- Claim C7: on non-empty arguments that both parse under
strconv.ParseInt with base 0, HexEqual compares the parsed values: it
returns true exactly on numerically equal values, as on the pair 0x10
and 16, and false on unequal ones, as on 0x10 and 17. -/
theorem claim_C7 :
    (∀ (k : String) (d : ResourceData) (a b : String) (x y : Int),
       a ≠ "" → b ≠ "" → goParseInt0 a = some x → goParseInt0 b = some y →
       HexEqual k a b d = some (decide (x = y))) ∧
    HexEqual "key" "0x10" "16" ⟨⟩ = some true ∧
    HexEqual "key" "0x10" "17" ⟨⟩ = some false := by
  refine ⟨?_, by decide, by decide⟩
  intro k d a b x y ha hb hx hy
  by_cases hab : a = b
  · subst hab
    rw [hx] at hy
    injection hy with hy
    subst hy
    simp [HexEqual]
  · unfold HexEqual
    rw [if_neg hab, if_neg (by simp [ha, hb]), hx, hy]

/-- Witness for claim C7 at the concrete pair 0x10 and 16. -/
theorem claim_C7_witness :
    HexEqual "key" "0x10" "16" ⟨⟩ = some (decide ((16 : Int) = 16)) :=
  claim_C7.1 "key" ⟨⟩ "0x10" "16" 16 16 (by decide) (by decide) (by decide) (by decide)

/-- Claim C8: the service-field schemas PropResourcePath and PropId both
carry a DiffSuppressFunc that returns true on every argument tuple, and
their defaults are the given path string and the given id type value. -/
theorem claim_C8 :
    ∀ (p : String) (t : IdType),
      (∃ f, (PropResourcePath p).diffSuppress = some f ∧
         ∀ k old new d, f k old new d = some true) ∧
      (∃ g, (PropId t).diffSuppress = some g ∧
         ∀ k old new d, g k old new d = some true) ∧
      (PropResourcePath p).default = SchemaDefault.str p ∧
      (PropId t).default = SchemaDefault.int t :=
  fun _ _ => ⟨⟨_, rfl, fun _ _ _ _ => rfl⟩, ⟨_, rfl, fun _ _ _ _ => rfl⟩, rfl, rfl⟩

/-- Claim C9: both diff-suppressors are reflexively true, and on any pair
of arguments where both argument orders return without panicking the two
orders agree. -/
theorem claim_C9 :
    (∀ (k : String) (d : ResourceData) (a : String),
       TimeEquall k a a d = some true ∧ HexEqual k a a d = some true) ∧
    (∀ (k : String) (d : ResourceData) (a b : String) (r r' : Bool),
       TimeEquall k a b d = some r → TimeEquall k b a d = some r' → r = r') ∧
    (∀ (k : String) (d : ResourceData) (a b : String) (r r' : Bool),
       HexEqual k a b d = some r → HexEqual k b a d = some r' → r = r') := by
  refine ⟨fun k d a => ⟨by simp [TimeEquall], by simp [HexEqual]⟩, ?_, ?_⟩
  · intro k d a b r r' hab hba
    by_cases h1 : a = b
    · subst h1
      rw [show TimeEquall k a a d = some true from by simp [TimeEquall]] at hab hba
      injection hab with hab
      injection hba with hba
      subst hab; subst hba; rfl
    · have h1' : b ≠ a := fun hc => h1 hc.symm
      unfold TimeEquall at hab hba
      rw [if_neg h1] at hab
      rw [if_neg h1'] at hba
      by_cases h2 : a = ""
      · rw [if_pos (by simp [h2])] at hab
        rw [if_pos (by simp [h2])] at hba
        injection hab with hab
        injection hba with hba
        subst hab; subst hba; rfl
      · by_cases h3 : b = ""
        · rw [if_pos (by simp [h3])] at hab
          rw [if_pos (by simp [h3])] at hba
          injection hab with hab
          injection hba with hba
          subst hab; subst hba; rfl
        · rw [if_neg (by simp [h2, h3])] at hab
          rw [if_neg (by simp [h2, h3])] at hba
          cases ho : parseDurationMs a with
          | none => rw [ho] at hab hba; cases hn : parseDurationMs b with
            | none => rw [hn] at hab; cases hab
            | some n => rw [hn] at hab; cases hab
          | some o =>
            rw [ho] at hab hba
            cases hn : parseDurationMs b with
            | none => rw [hn] at hab; cases hab
            | some n =>
              rw [hn] at hab hba
              injection hab with hab
              injection hba with hba
              subst hab; subst hba
              exact decide_eq_decide.mpr eq_comm
  · intro k d a b r r' hab hba
    by_cases h1 : a = b
    · subst h1
      rw [show HexEqual k a a d = some true from by simp [HexEqual]] at hab hba
      injection hab with hab
      injection hba with hba
      subst hab; subst hba; rfl
    · have h1' : b ≠ a := fun hc => h1 hc.symm
      unfold HexEqual at hab hba
      rw [if_neg h1] at hab
      rw [if_neg h1'] at hba
      by_cases h2 : a = ""
      · rw [if_pos (by simp [h2])] at hab
        rw [if_pos (by simp [h2])] at hba
        injection hab with hab
        injection hba with hba
        subst hab; subst hba; rfl
      · by_cases h3 : b = ""
        · rw [if_pos (by simp [h3])] at hab
          rw [if_pos (by simp [h3])] at hba
          injection hab with hab
          injection hba with hba
          subst hab; subst hba; rfl
        · rw [if_neg (by simp [h2, h3])] at hab
          rw [if_neg (by simp [h2, h3])] at hba
          cases ho : goParseInt0 a with
          | none => rw [ho] at hab hba; cases hn : goParseInt0 b with
            | none => rw [hn] at hab; cases hab
            | some n => rw [hn] at hab; cases hab
          | some o =>
            rw [ho] at hab hba
            cases hn : goParseInt0 b with
            | none => rw [hn] at hab; cases hab
            | some n =>
              rw [hn] at hab hba
              injection hab with hab
              injection hba with hba
              subst hab; subst hba
              exact decide_eq_decide.mpr eq_comm

/-- Witness for claim C9 at the concrete symmetric pair 1h and 60M. -/
theorem claim_C9_witness : true = true :=
  claim_C9.2.1 "key" ⟨⟩ "1h" "60M" true true (by decide) (by decide)

/-- Claim C10: because the MTU validator parses with base 0, non-decimal
spellings of in-range integers pass: the hex spelling 0x5DC of 1500 and
the binary spelling 0b111 of 7 yield no diagnostics. -/
theorem claim_C10 :
    mtuValidate "0x5DC" = [] ∧ mtuValidate "0b111" = [] ∧
    goParseInt0 "0x5DC" = some 1500 ∧ goParseInt0 "0b111" = some 7 := by
  exact ⟨by decide, by decide, by decide, by decide⟩

end RouterOS

